import Mathlib

/-!
Verification development for the bpnet-lite data-preparation core
(`bpnetlite/io.py` and `bpnetlite/attributions.py`).

Python functions are shallowly embedded as executable Lean definitions:
matrices become `List (List _)` (row-major, matching the numpy/torch
shapes), fallible code returns `Option`/`Except` (a `none`/`error`
models a raised Python exception), and the numpy `RandomState` stream is
abstracted as an oracle parameter supplying the values that each call to
`permutation`/`randint`/`choice` would produce.
-/

/-- Sequential `Option`-valued map: the shape of a Python loop that
builds a list and propagates the first raised exception. -/
def mapMO {α β : Type} (f : α → Option β) : List α → Option (List β)
  | [] => some []
  | a :: rest =>
    match f a with
    | none => none
    | some b =>
      match mapMO f rest with
      | none => none
      | some bs => some (b :: bs)

theorem mapMO_length {α β : Type} (f : α → Option β) :
    ∀ (l : List α) (r : List β), mapMO f l = some r → r.length = l.length := by
  intro l
  induction l with
  | nil => intro r h; simp [mapMO] at h; simp [← h]
  | cons a rest ih =>
    intro r h
    simp only [mapMO] at h
    cases hfa : f a with
    | none => rw [hfa] at h; exact absurd h (by simp)
    | some b =>
      rw [hfa] at h
      cases hrest : mapMO f rest with
      | none => rw [hrest] at h; exact absurd h (by simp)
      | some bs =>
        rw [hrest] at h
        simp only [Option.some.injEq] at h
        subst h
        simp [ih bs hrest]

theorem mapMO_get? {α β : Type} (f : α → Option β) :
    ∀ (l : List α) (r : List β), mapMO f l = some r →
      ∀ (i : Nat) (c : α), l.get? i = some c →
        ∃ b, r.get? i = some b ∧ f c = some b := by
  intro l
  induction l with
  | nil => intro r _ i c hc; simp at hc
  | cons a rest ih =>
    intro r h i c hc
    simp only [mapMO] at h
    cases hfa : f a with
    | none => rw [hfa] at h; exact absurd h (by simp)
    | some b =>
      rw [hfa] at h
      cases hrest : mapMO f rest with
      | none => rw [hrest] at h; exact absurd h (by simp)
      | some bs =>
        rw [hrest] at h
        simp only [Option.some.injEq] at h
        subst h
        cases i with
        | zero =>
          simp at hc
          subst hc
          exact ⟨b, by simp, hfa⟩
        | succ n =>
          simp only [List.get?_cons_succ] at hc ⊢
          exact ih bs hrest n c hc

theorem mapMO_eq_none_iff {α β : Type} (f : α → Option β) :
    ∀ (l : List α), mapMO f l = none ↔ ∃ c ∈ l, f c = none := by
  intro l
  induction l with
  | nil => simp [mapMO]
  | cons a rest ih =>
    simp only [mapMO]
    cases hfa : f a with
    | none =>
      constructor
      · intro _
        exact ⟨a, List.mem_cons_self a rest, hfa⟩
      · intro _
        rfl
    | some b =>
      cases hrest : mapMO f rest with
      | none =>
        obtain ⟨c, hc, hfc⟩ := ih.1 hrest
        constructor
        · intro _
          exact ⟨c, List.mem_cons_of_mem a hc, hfc⟩
        · intro _
          rfl
      | some bs =>
        constructor
        · intro h
          exact absurd h (by simp)
        · rintro ⟨c, hc, hfc⟩
          rcases List.mem_cons.1 hc with hca | hcr
          · subst hca
            rw [hfc] at hfa
            exact absurd hfa (by simp)
          · have hnone : mapMO f rest = none := ih.2 ⟨c, hcr, hfc⟩
            rw [hnone] at hrest
            exact absurd hrest (by simp)

/-- `numpy`-style transpose of a row-major rectangular matrix
(`.T` / reading `axis=0` columns). -/
def matTranspose {α : Type} [Inhabited α] (m : List (List α)) : List (List α) :=
  (List.range (m.headD []).length).map (fun j => m.map (fun row => row.getD j default))

/-- Index of the first maximal element, as computed by
`torch.argmax` / `numpy.argmax` over a 1-D array. -/
def argmaxAux : List Nat → Nat → Nat → Nat → Nat
  | [], _, best, _ => best
  | x :: rest, i, best, bestVal =>
    if x > bestVal then argmaxAux rest (i + 1) i x
    else argmaxAux rest (i + 1) best bestVal

def argmaxL : List Nat → Nat
  | [] => 0
  | x :: rest => argmaxAux rest 1 0 x

/-- Sorted distinct values, as returned by `torch.unique` (first
component of the result). -/
def sortedUniqueN (l : List Nat) : List Nat :=
  List.insertionSort (fun a b => a ≤ b) l.dedup

/-- Index of a value inside a duplicate-free list, as produced by the
`return_inverse=True` component of `torch.unique`. -/
def idxOfN : List Nat → Nat → Nat
  | [], _ => 0
  | x :: rest, v => if x = v then 0 else idxOfN rest v + 1

/-- `attributions.py` lines 101-104: for every entry of `chars`, the
positions `p + 1` such that `idxs[p]` equals that entry, scanning
`idxs[:-1]`.  Note the source compares the inverse indices `idxs`
against the raw value `char`. -/
def buildNext (chars idxs : List Nat) : List (List Nat) :=
  chars.map (fun c =>
    ((idxs.dropLast.enum.filter (fun pe => pe.2 = c)).map (fun pe => pe.1 + 1)))

/-- `attributions.py` lines 110-112: build `next_idxs_ = arange(m)`,
overwrite all but the last slot with a permutation `p` of `[0, m-1)`,
and fancy-index the successor list by it (the last slot is kept). -/
def permuteKeepLast (p : List Nat) (lst : List Nat) : List Nat :=
  if lst.isEmpty then lst
  else (p ++ [lst.length - 1]).map (fun t => lst.getD t 0)

/-- `attributions.py` lines 109-112: one pass of the per-trial
permutation loop `for char in chars: next_idxs[char] = ...`.  The
lookup `next_idxs[char]` uses the raw symbol value as a list index and
raises `IndexError` (modelled by `none`) when it is out of range. -/
def permuteStep (rng : Nat → Nat → Nat → List Nat) (i : Nat) :
    List Nat → List (List Nat) → Option (List (List Nat))
  | [], ni => some ni
  | c :: cs, ni =>
    match ni.get? c with
    | none => none
    | some lst =>
      permuteStep rng i cs (ni.set c (permuteKeepLast (rng i c (lst.length - 1)) lst))

/-- `attributions.py` lines 118-123: the greedy walk emitting the
remaining `length - 1` symbols.  Out-of-range list accesses model the
`IndexError` numpy would raise. -/
def walk (idxs : List Nat) : Nat → List (List Nat) → List Nat → Nat → List Nat →
    Option (List Nat)
  | 0, _, _, _, acc => some acc.reverse
  | steps + 1, ni, counters, idx, acc =>
    match idxs.get? idx with
    | none => none
    | some c =>
      match ni.get? c with
      | none => none
      | some lst =>
        match lst.get? (counters.getD c 0) with
        | none => none
        | some idx' =>
          match idxs.get? idx' with
          | none => none
          | some emit =>
            walk idxs steps ni (counters.set c (counters.getD c 0 + 1)) idx' (emit :: acc)

/-- `attributions.py` lines 114-123: one reconstruction trial, starting
from position 0 with fresh per-symbol counters. -/
def reconstructTrial (idxs : List Nat) (ni : List (List Nat)) (k : Nat) :
    Option (List Nat) :=
  match idxs.get? 0 with
  | none => none
  | some c0 => walk idxs (idxs.length - 1) ni (List.replicate k 0) 0 [c0]

/-- `attributions.py` lines 108-123: the `for i in range(n_shuffles)`
loop.  The successor lists are permuted in place, so the permuted state
is threaded into the following trial exactly as in the source. -/
def trials (rng : Nat → Nat → Nat → List Nat) (chars idxs : List Nat) :
    Nat → Nat → List (List Nat) → Option (List (List Nat))
  | 0, _, _ => some []
  | n + 1, i, ni =>
    match permuteStep rng i chars ni with
    | none => none
    | some ni' =>
      match reconstructTrial idxs ni' chars.length with
      | none => none
      | some out =>
        match trials rng chars idxs n (i + 1) ni' with
        | none => none
        | some outs => some (out :: outs)

/-- One-hot matrix of `k` rows built from a decoded row-index sequence:
`shuffled_sequences[i, row, j] = 1` for each emitted `row` at column
`j`, all other entries left at zero. -/
def oneHotFromDecoded (k : Nat) (out : List Nat) : List (List Nat) :=
  (List.range k).map (fun r => out.map (fun v => if v = r then 1 else 0))

/-- `attributions.py` lines 59-125, `dinucleotide_shuffle`.  The input
is a one-hot matrix of shape `(k, L)` given as a list of `k` rows; the
result is the list of `n_shuffles` one-hot matrices, or `none` when the
source would raise.  `rng i c m` supplies the value of the numpy call
`random_state.permutation(m)` made in trial `i` for symbol value `c`. -/
def dinucleotide_shuffle (rng : Nat → Nat → Nat → List Nat)
    (sequence : List (List Nat)) (n_shuffles : Nat) :
    Option (List (List (List Nat))) :=
  let decoded := (matTranspose sequence).map argmaxL
  let chars := sortedUniqueN decoded
  let idxs := decoded.map (idxOfN chars)
  let ni := buildNext chars idxs
  (trials rng chars idxs n_shuffles 0 ni).map
    (fun outs => outs.map (fun out => oneHotFromDecoded sequence.length out))

/-- An identity-permutation oracle: `rng i c m = [0, 1, ..., m-1]`, a
legitimate value for `random_state.permutation(m)`. -/
def rngRange : Nat → Nat → Nat → List Nat := fun _ _ n => List.range n

/-- One-hot encoding (4 rows) of the DNA string "AG": decoded symbol
indices `[0, 2]`. -/
def ohAG : List (List Nat) := [[1, 0], [0, 0], [0, 1], [0, 0]]

/-- One-hot encoding (4 rows) of the DNA string "CC": decoded symbol
indices `[1, 1]`. -/
def ohCC : List (List Nat) := [[0, 0], [1, 1], [0, 0], [0, 0]]

/-- C1: the claim quantifies over every one-hot sequence of length at
least 2, but `dinucleotide_shuffle` raises `IndexError` whenever the
set of decoded symbols is not `{0, ..., m-1}`: the successor lists hold
one entry per distinct symbol yet are indexed by the raw symbol value.
On the one-hot sequence "AG" (decoded `[0, 2]`) with `n_shuffles = 10`
the function fails instead of returning shuffled sequences. -/
theorem dinucleotide_shuffle_raises_on_AG :
    dinucleotide_shuffle rngRange ohAG 10 = none := by decide

/-- `io.py` line 70: the dictionary comprehension
`\x7bchar: i for i, char in enumerate(alphabet)\x7d`; for a duplicated
character the later index wins, so the lookup yields the last index at
which the character occurs, `none` when it does not occur (KeyError). -/
def lastIdxOf : List Char → Char → Option Nat
  | [], _ => none
  | a :: rest, c =>
    match lastIdxOf rest c with
    | some i => some (i + 1)
    | none => if a = c then some 0 else none

/-- A length-`n` zero row with a single 1 written at position `idx`
(`ohe[i, idx] = 1` on a zero-initialised row). -/
def oneHotRow (n idx : Nat) : List Nat :=
  (List.range n).map (fun j => if j = idx then 1 else 0)

/-- `numpy.unique` over characters: sorted distinct values. -/
def sortedUniqueC (l : List Char) : List Char :=
  List.insertionSort (fun a b => a ≤ b) l.dedup

/-- `io.py` lines 68-69: `alphabet = alphabet or numpy.unique(sequence)`
followed by the filter dropping the ignored character.  A supplied
alphabet that is an empty list is falsy in Python, so the alphabet is
inferred from the sequence in that case as well. -/
def effAlphabet (sequence : List Char) (ign : Char) (alphabet : Option (List Char)) :
    List Char :=
  (match alphabet with
   | none => sortedUniqueC sequence
   | some a => if a.isEmpty then sortedUniqueC sequence else a).filter (fun c => c != ign)

/-- `io.py` lines 73-76: the body of the encoding loop for one
character: ignored characters keep their all-zero row, others index the
lookup table (`none` models the KeyError on a missing character). -/
def encodeSym (alpha : List Char) (ign : Char) (c : Char) : Option (List Nat) :=
  if c = ign then some (List.replicate alpha.length 0)
  else (lastIdxOf alpha c).map (oneHotRow alpha.length)

/-- `io.py` lines 14-78, `one_hot_encode`.  The returned matrix is
row-major with one row per sequence position, exactly as the source
allocates `numpy.zeros((len(sequence), len(alphabet)))`. -/
def one_hot_encode (sequence : List Char) (ign : Char) (alphabet : Option (List Char)) :
    Option (List (List Nat)) :=
  mapMO (encodeSym (effAlphabet sequence ign alphabet) ign) sequence

theorem lastIdxOf_eq_none_iff (c : Char) :
    ∀ l : List Char, lastIdxOf l c = none ↔ c ∉ l := by
  intro l
  induction l with
  | nil => simp [lastIdxOf]
  | cons a rest ih =>
    simp only [lastIdxOf]
    cases hr : lastIdxOf rest c with
    | some i =>
      have hmem : c ∈ rest := by
        by_contra hc
        rw [ih.2 hc] at hr
        exact absurd hr (by simp)
      constructor
      · intro h
        exact absurd h (by simp)
      · intro h
        exact absurd (List.mem_cons_of_mem a hmem) h
    | none =>
      by_cases hac : a = c
      · simp only [hac, if_pos rfl]
        constructor
        · intro h
          exact absurd h (by simp)
        · intro h
          exact absurd (List.mem_cons_self c rest) h
      · simp only [if_neg hac]
        constructor
        · intro _ hmem
          rcases List.mem_cons.1 hmem with h1 | h2
          · exact hac h1.symm
          · exact (ih.1 hr) h2
        · intro _
          trivial

theorem lastIdxOf_lt (c : Char) :
    ∀ (l : List Char) (i : Nat), lastIdxOf l c = some i → i < l.length := by
  intro l
  induction l with
  | nil => intro i h; simp [lastIdxOf] at h
  | cons a rest ih =>
    intro i h
    simp only [lastIdxOf] at h
    cases hr : lastIdxOf rest c with
    | some j =>
      rw [hr] at h
      simp only [Option.some.injEq] at h
      subst h
      exact Nat.succ_lt_succ (ih j hr)
    | none =>
      rw [hr] at h
      by_cases hac : a = c
      · rw [if_pos hac] at h
        simp only [Option.some.injEq] at h
        subst h
        simp
      · rw [if_neg hac] at h
        exact absurd h (by simp)

theorem oneHotRow_getD (n idx j : Nat) :
    (oneHotRow n idx).getD j 0 = if j < n then (if j = idx then 1 else 0) else 0 := by
  by_cases hj : j < n
  · simp [oneHotRow, List.getD_eq_getElem?_getD, List.getElem?_map,
      List.getElem?_range hj, hj]
  · have hlen : (List.range n)[j]? = none :=
      List.getElem?_eq_none (by simpa using Nat.le_of_not_lt hj)
    simp [oneHotRow, List.getD_eq_getElem?_getD, hlen, hj]

theorem replicate_zero_getD (n j : Nat) :
    (List.replicate n (0 : Nat)).getD j 0 = 0 := by
  simp [List.getD_eq_getElem?_getD, List.getElem?_replicate]
  by_cases hj : j < n <;> simp [hj]

/-- C2 counterexample: the claim says the matrix has shape
(alphabet_size, sequence_length); on the sequence "ACGA" (inferred
alphabet of size 3, length 4) the claimed shape would give 3 rows, but
`one_hot_encode` produces a 4-row matrix: the source allocates
`numpy.zeros((len(sequence), len(alphabet)))` and never transposes. -/
theorem one_hot_encode_shape_counterexample :
    ∃ m, one_hot_encode (['A', 'C', 'G', 'A']) 'N' none = some m ∧
      m.length = 4 ∧ ¬ m.length = 3 := by
  refine ⟨[[1, 0, 0], [0, 1, 0], [0, 0, 1], [1, 0, 0]], by decide, by decide, by decide⟩

/-- C2 (amended): `one_hot_encode` returns a matrix of shape
(sequence_length, alphabet_size); each row has at most one entry equal
to 1 and the rest 0, the row at every position whose symbol equals the
ignore symbol is all-zero, and at every other position the entry at the
symbol's alphabet index is 1. -/
theorem one_hot_encode_shape (seq : List Char) (ign : Char)
    (alphabet : Option (List Char)) (ohe : List (List Nat))
    (h : one_hot_encode seq ign alphabet = some ohe) :
    ohe.length = seq.length ∧
    ∀ i c row, seq.get? i = some c → ohe.get? i = some row →
      row.length = (effAlphabet seq ign alphabet).length ∧
      (∀ j, row.getD j 0 = 0 ∨ row.getD j 0 = 1) ∧
      (∀ j1 j2, row.getD j1 0 = 1 → row.getD j2 0 = 1 → j1 = j2) ∧
      (c = ign → ∀ j, row.getD j 0 = 0) ∧
      (c ≠ ign → ∃ idx, lastIdxOf (effAlphabet seq ign alphabet) c = some idx ∧
        row.getD idx 0 = 1) := by
  unfold one_hot_encode at h
  refine ⟨mapMO_length _ seq ohe h, ?_⟩
  intro i c row hc hrow
  obtain ⟨b, hb, hfc⟩ := mapMO_get? _ seq ohe h i c hc
  rw [hrow] at hb
  simp only [Option.some.injEq] at hb
  subst hb
  unfold encodeSym at hfc
  by_cases hcign : c = ign
  · rw [if_pos hcign] at hfc
    simp only [Option.some.injEq] at hfc
    subst hfc
    refine ⟨by simp, ?_, ?_, ?_, ?_⟩
    · intro j
      exact Or.inl (replicate_zero_getD _ j)
    · intro j1 j2 h1 _
      rw [replicate_zero_getD] at h1
      exact absurd h1 (by simp)
    · intro _ j
      exact replicate_zero_getD _ j
    · intro hne
      exact absurd hcign hne
  · rw [if_neg hcign] at hfc
    cases hlk : lastIdxOf (effAlphabet seq ign alphabet) c with
    | none =>
      rw [hlk] at hfc
      exact absurd hfc (by simp)
    | some idx =>
      rw [hlk] at hfc
      simp only [Option.map_some', Option.some.injEq] at hfc
      subst hfc
      have hidx : idx < (effAlphabet seq ign alphabet).length :=
        lastIdxOf_lt c _ idx hlk
      refine ⟨by simp [oneHotRow], ?_, ?_, ?_, ?_⟩
      · intro j
        rw [oneHotRow_getD]
        by_cases h1 : j < (effAlphabet seq ign alphabet).length
        · rw [if_pos h1]
          by_cases h2 : j = idx
          · rw [if_pos h2]
            exact Or.inr rfl
          · rw [if_neg h2]
            exact Or.inl rfl
        · rw [if_neg h1]
          exact Or.inl rfl
      · intro j1 j2 h1 h2
        rw [oneHotRow_getD] at h1 h2
        by_cases hj1 : j1 < (effAlphabet seq ign alphabet).length
        · by_cases hj2 : j2 < (effAlphabet seq ign alphabet).length
          · rw [if_pos hj1] at h1
            rw [if_pos hj2] at h2
            by_cases e1 : j1 = idx
            · by_cases e2 : j2 = idx
              · rw [e1, e2]
              · rw [if_neg e2] at h2
                exact absurd h2 (by simp)
            · rw [if_neg e1] at h1
              exact absurd h1 (by simp)
          · rw [if_neg hj2] at h2
            exact absurd h2 (by simp)
        · rw [if_neg hj1] at h1
          exact absurd h1 (by simp)
      · intro hceq
        exact absurd hceq hcign
      · intro _
        refine ⟨idx, rfl, ?_⟩
        rw [oneHotRow_getD, if_pos hidx, if_pos rfl]

/-- C2 witness: the amended theorem applied to the concrete sequence
"ACGA" with the default ignore symbol and inferred alphabet. -/
theorem one_hot_encode_shape_witness :
    one_hot_encode (['A', 'C', 'G', 'A']) 'N' none =
      some [[1, 0, 0], [0, 1, 0], [0, 0, 1], [1, 0, 0]] ∧
    ([[1, 0, 0], [0, 1, 0], [0, 0, 1], [1, 0, 0]] : List (List Nat)).length =
      (['A', 'C', 'G', 'A'] : List Char).length :=
  ⟨by decide,
    (one_hot_encode_shape (['A', 'C', 'G', 'A']) 'N' none
      [[1, 0, 0], [0, 1, 0], [0, 0, 1], [1, 0, 0]] (by decide)).1⟩

/-- C5 counterexample: the claim says a lookup error is raised whenever
an explicit alphabet is supplied and the input holds a symbol absent
from it (other than the ignore symbol).  Supplying the explicit empty
alphabet with input "A" meets that condition, yet the call succeeds:
an empty list is falsy in Python, so `alphabet or numpy.unique(...)`
silently falls back to the inferred alphabet. -/
theorem one_hot_encode_error_counterexample :
    ('A' ∉ ([] : List Char) ∧ 'A' ≠ 'N') ∧
      one_hot_encode (['A']) 'N' (some []) = some [[1]] := by
  refine ⟨⟨by simp, by decide⟩, by decide⟩

/-- C5 (amended): `one_hot_encode` raises a key/lookup error if and
only if an explicit non-empty alphabet is supplied and the input holds
a symbol absent from it that is not the ignore symbol; a supplied empty
alphabet behaves as if no alphabet were supplied. -/
theorem one_hot_encode_error_iff (seq : List Char) (ign : Char)
    (alphabet : Option (List Char)) :
    one_hot_encode seq ign alphabet = none ↔
      ∃ a, alphabet = some a ∧ a ≠ [] ∧ ∃ c ∈ seq, c ≠ ign ∧ c ∉ a := by
  unfold one_hot_encode
  rw [mapMO_eq_none_iff]
  constructor
  · rintro ⟨c, hc, hfc⟩
    unfold encodeSym at hfc
    by_cases hcign : c = ign
    · rw [if_pos hcign] at hfc
      exact absurd hfc (by simp)
    · rw [if_neg hcign] at hfc
      cases hlk : lastIdxOf (effAlphabet seq ign alphabet) c with
      | some idx =>
        rw [hlk] at hfc
        exact absurd hfc (by simp)
      | none =>
        have hnotmem : c ∉ effAlphabet seq ign alphabet :=
          (lastIdxOf_eq_none_iff c _).1 hlk
        cases halpha : alphabet with
        | none =>
          exfalso
          apply hnotmem
          simp only [effAlphabet, halpha, List.mem_filter, bne_iff_ne, ne_eq,
            decide_eq_true_eq]
          exact ⟨by simp [sortedUniqueC, List.mem_insertionSort, List.mem_dedup, hc],
            by simpa using hcign⟩
        | some a =>
          by_cases hae : a.isEmpty
          · exfalso
            apply hnotmem
            simp only [effAlphabet, halpha, if_pos hae, List.mem_filter, bne_iff_ne,
              ne_eq, decide_eq_true_eq]
            exact ⟨by simp [sortedUniqueC, List.mem_insertionSort, List.mem_dedup, hc],
              by simpa using hcign⟩
          · refine ⟨a, rfl, by simpa using hae, c, hc, hcign, ?_⟩
            intro hmem
            apply hnotmem
            simp only [effAlphabet, halpha, if_neg hae, List.mem_filter, bne_iff_ne,
              ne_eq, decide_eq_true_eq]
            exact ⟨hmem, by simpa using hcign⟩
  · rintro ⟨a, halpha, hane, c, hc, hcign, hnotmem⟩
    refine ⟨c, hc, ?_⟩
    unfold encodeSym
    rw [if_neg hcign]
    have hae : a.isEmpty = false := by
      rw [List.isEmpty_eq_false]
      exact hane
    have : c ∉ effAlphabet seq ign alphabet := by
      intro hmem
      simp only [effAlphabet.eq_def, halpha, hae, Bool.false_eq_true, if_false,
        List.mem_filter] at hmem
      exact hnotmem hmem.1
    rw [(lastIdxOf_eq_none_iff c _).2 this]
    rfl

/-- C5 witness: the amended characterisation applied to a concrete
failing input — with the non-empty explicit alphabet consisting of
only the character A, encoding "AC" fails with a lookup error. -/
theorem one_hot_encode_error_iff_witness :
    one_hot_encode (['A', 'C']) 'N' (some ['A']) = none :=
  (one_hot_encode_error_iff (['A', 'C']) 'N' (some ['A'])).2
    ⟨['A'], rfl, by decide, 'C', by decide, by decide, by decide⟩

/-- `io.py` line 278: `mid = start + (end - start) // 2` with Python
floor division. -/
def peakMid (s e : Int) : Int := s + (e - s).fdiv 2

/-- `io.py` lines 247 and 279-280: the half-open window queried from
the signal sources only, `[mid - out_window // 2 - max_jitter,
mid + out_window // 2 + max_jitter)`.  Control sources are not queried
over this window: lines 294-295 reassign `start`/`end` to the input
window before the control loop runs. -/
def signalWindow (s e : Int) (out_window max_jitter : Nat) : Int × Int :=
  (peakMid s e - (out_window / 2 : Nat) - max_jitter,
   peakMid s e + (out_window / 2 : Nat) + max_jitter)

/-- `io.py` lines 247 and 294-295: the half-open window queried from
the sequence source and from the control sources (the control loop at
lines 298-307 and the sequence extraction at lines 309-314 both run
after `start`/`end` are reassigned to these bounds),
`[mid - in_window // 2 - max_jitter, mid + in_window // 2 + max_jitter)`. -/
def seqWindow (s e : Int) (in_window max_jitter : Nat) : Int × Int :=
  (peakMid s e - (in_window / 2 : Nat) - max_jitter,
   peakMid s e + (in_window / 2 : Nat) + max_jitter)

/-- The wrapper selected by `calculate_attributions`: `ProfileWrapper`
or `CountWrapper` around the externally supplied model
(`attributions.py` lines 10-56, treated as output-selection adapters
over the opaque model). -/
inductive Wrapper (μ : Type) where
  | profile (model : μ)
  | count (model : μ)

/-- `attributions.py` lines 177-193: the attribution loop.  The captum
`DeepLiftShap.attribute` call and the `attr * X_` masking act on opaque
torch values and are abstracted as the external primitive `attrFn`,
invoked per example on the wrapped model, the example, and its
dinucleotide-shuffled reference set.  A `none` from the shuffler is the
propagated `IndexError`. -/
def attributionLoop {μ κ : Type} (attrFn : Wrapper μ → List (List Nat) → List (List (List Nat)) → κ)
    (rng : Nat → Nat → Nat → List Nat) (w : Wrapper μ)
    (X : List (List (List Nat))) (n_shuffles : Nat) : Except String (List κ) :=
  match mapMO (fun x => (dinucleotide_shuffle rng x n_shuffles).map (attrFn w x)) X with
  | none => Except.error "list index out of range"
  | some attrs => Except.ok attrs

/-- `attributions.py` lines 128-194, `calculate_attributions`.  The
`model_output` dispatch (lines 168-173) happens before the attribution
primitive is constructed and before any shuffling; an unrecognised
value raises `ValueError` with the message given below (apostrophes of
the original message elided). -/
def calculate_attributions {μ κ : Type}
    (attrFn : Wrapper μ → List (List Nat) → List (List (List Nat)) → κ)
    (rng : Nat → Nat → Nat → List Nat) (model : μ) (X : List (List (List Nat)))
    (model_output : String) (n_shuffles : Nat) : Except String (List κ) :=
  if model_output = "profile" then
    attributionLoop attrFn rng (Wrapper.profile model) X n_shuffles
  else if model_output = "count" then
    attributionLoop attrFn rng (Wrapper.count model) X n_shuffles
  else
    Except.error "model_output must be one of profile or count."

/-- C6: for every `model_output` other than "profile" or "count",
`calculate_attributions` fails with the configuration `ValueError` at
call time, for every model, input set, attribution primitive and
random stream alike — no shuffling or attribution work is performed. -/
theorem calculate_attributions_invalid_selector {μ κ : Type}
    (attrFn : Wrapper μ → List (List Nat) → List (List (List Nat)) → κ)
    (rng : Nat → Nat → Nat → List Nat) (model : μ) (X : List (List (List Nat)))
    (model_output : String) (n_shuffles : Nat)
    (h1 : model_output ≠ "profile") (h2 : model_output ≠ "count") :
    calculate_attributions attrFn rng model X model_output n_shuffles =
      Except.error "model_output must be one of profile or count." := by
  unfold calculate_attributions
  rw [if_neg h1, if_neg h2]

/-- C6 witness: the invalid selector "logits" is rejected on a concrete
instantiation. -/
theorem calculate_attributions_invalid_selector_witness :
    calculate_attributions (fun (_ : Wrapper Unit) _ _ => (0 : Nat)) rngRange () []
      "logits" 10 =
      Except.error "model_output must be one of profile or count." :=
  calculate_attributions_invalid_selector _ rngRange () [] "logits" 10
    (by decide) (by decide)

/-- `io.py` lines 154-159: the reverse-complement augmentation.
`X[::-1]` reverses the channel axis of the row-major matrix, then
`[:, ::-1]` reverses each row along the length axis. -/
def rcTransform {α : Type} (t : List (List α)) : List (List α) :=
  t.reverse.map List.reverse

/-- C8: the reverse-complement augmentation transform is an involution:
applying it twice to any slice returns the original slice. -/
theorem rcTransform_involution {α : Type} (t : List (List α)) :
    rcTransform (rcTransform t) = t := by
  simp [rcTransform, List.map_reverse, List.reverse_reverse, List.map_map,
    Function.comp]

/-- `io.py` lines 127-139: the state a `DataGenerator` holds.  Tensors
are row-major: `n` examples, each a list of channels, each channel a
list of positions. -/
structure DGen where
  sequences : List (List (List Int))
  signals : List (List (List Int))
  controls : Option (List (List (List Int)))
  in_window : Nat
  out_window : Nat
  max_jitter : Nat
  reverse_complement : Bool

/-- `numpy.random.RandomState.randint(n)`: a value drawn from `[0, n)`,
raising `ValueError` when the range is empty; `raw` is the draw the
generator stream supplies. -/
def npRandint (raw n : Nat) : Option Nat :=
  if n = 0 then none else some (raw % n)

/-- `numpy.random.RandomState.choice(n)`: a value drawn from `[0, n)`,
raising `ValueError` when `n = 0`. -/
def npChoice (raw n : Nat) : Option Nat :=
  if n = 0 then none else some (raw % n)

/-- `t[:, j:j+w]`: the same window of `w` positions out of every
channel. -/
def sliceCh (t : List (List Int)) (j w : Nat) : List (List Int) :=
  t.map (fun ch => (ch.drop j).take w)

/-- `io.py` lines 144-168, `DataGenerator.__getitem__`.  The access
index is ignored.  `raw 0`, `raw 1`, `raw 2` are the values supplied by
the generator stream for the `choice(len(sequences))`,
`randint(max_jitter*2)` and `choice(2)` calls, in source order. -/
def getitem (g : DGen) (raw : Nat → Nat) :
    Option (List (List Int) × Option (List (List Int)) × List (List Int)) :=
  match npChoice (raw 0) g.sequences.length with
  | none => none
  | some i =>
    match npRandint (raw 1) (g.max_jitter * 2) with
    | none => none
    | some j =>
      match g.sequences.get? i, g.signals.get? i with
      | some seqRow, some sigRow =>
        let X := sliceCh seqRow j g.in_window
        let y := sliceCh sigRow j g.out_window
        match g.controls with
        | none =>
          if g.reverse_complement ∧ raw 2 % 2 = 1 then
            some (rcTransform X, none, rcTransform y)
          else
            some (X, none, y)
        | some cs =>
          match cs.get? i with
          | none => none
          | some ctlRow =>
            let Xc := sliceCh ctlRow j g.in_window
            if g.reverse_complement ∧ raw 2 % 2 = 1 then
              some (rcTransform X, some (rcTransform Xc), rcTransform y)
            else
              some (X, some Xc, y)
      | _, _ => none

theorem sliceCh_width (t : List (List Int)) (j w mj : Nat)
    (hw : ∀ ch ∈ t, ch.length = w + 2 * mj) (hj : j < 2 * mj) :
    ∀ ch ∈ sliceCh t j w, ch.length = w := by
  intro ch hch
  rw [sliceCh] at hch
  obtain ⟨ch0, hch0, hr⟩ := List.mem_map.1 hch
  subst hr
  have hlen := hw ch0 hch0
  simp only [List.length_take, List.length_drop, hlen]
  omega

theorem rcTransform_width {α : Type} (t : List (List α)) (w : Nat)
    (hw : ∀ ch ∈ t, ch.length = w) : ∀ ch ∈ rcTransform t, ch.length = w := by
  intro ch hch
  rw [rcTransform] at hch
  obtain ⟨ch0, hch0, hr⟩ := List.mem_map.1 hch
  subst hr
  simp [hw ch0 (List.mem_reverse.1 hch0)]

/-- C7: on every successful access the drawn jitter offset `j` lies in
`[0, 2*max_jitter)`, and — given underlying rows of channel width
`in_window + 2*max_jitter` (sequences, controls) and
`out_window + 2*max_jitter` (signals) — the returned sequence slice and
control slice have width exactly `in_window` and the returned signal
slice width exactly `out_window`, all taken from the same drawn row `i`
and the same offset `j` (with the reverse-complement transform applied
to all of them or to none). -/
theorem getitem_spec (g : DGen) (raw : Nat → Nat)
    (hn : g.sequences.length ≠ 0) (hmj : g.max_jitter ≠ 0)
    (hsiglen : g.signals.length = g.sequences.length)
    (hctllen : ∀ cs, g.controls = some cs → cs.length = g.sequences.length)
    (hseqw : ∀ row ∈ g.sequences, ∀ ch ∈ row,
      ch.length = g.in_window + 2 * g.max_jitter)
    (hsigw : ∀ row ∈ g.signals, ∀ ch ∈ row,
      ch.length = g.out_window + 2 * g.max_jitter)
    (hctlw : ∀ cs, g.controls = some cs → ∀ row ∈ cs, ∀ ch ∈ row,
      ch.length = g.in_window + 2 * g.max_jitter) :
    ∃ (i j : Nat) (b : Bool) (seqRow sigRow : List (List Int))
      (X y : List (List Int)) (Xc : Option (List (List Int))),
      getitem g raw = some (X, Xc, y) ∧
      i < g.sequences.length ∧ j < 2 * g.max_jitter ∧
      g.sequences.get? i = some seqRow ∧ g.signals.get? i = some sigRow ∧
      X = (if b then rcTransform (sliceCh seqRow j g.in_window)
           else sliceCh seqRow j g.in_window) ∧
      y = (if b then rcTransform (sliceCh sigRow j g.out_window)
           else sliceCh sigRow j g.out_window) ∧
      (g.controls = none → Xc = none) ∧
      (∀ cs, g.controls = some cs → ∃ ctlRow, cs.get? i = some ctlRow ∧
        Xc = some (if b then rcTransform (sliceCh ctlRow j g.in_window)
                   else sliceCh ctlRow j g.in_window)) ∧
      (∀ ch ∈ X, ch.length = g.in_window) ∧
      (∀ ch ∈ y, ch.length = g.out_window) ∧
      (∀ Xc', Xc = some Xc' → ∀ ch ∈ Xc', ch.length = g.in_window) := by
  have hmj2 : g.max_jitter * 2 ≠ 0 := by omega
  have hi : raw 0 % g.sequences.length < g.sequences.length :=
    Nat.mod_lt _ (Nat.pos_of_ne_zero hn)
  have hj0 : raw 1 % (g.max_jitter * 2) < g.max_jitter * 2 :=
    Nat.mod_lt _ (Nat.pos_of_ne_zero hmj2)
  have hj : raw 1 % (g.max_jitter * 2) < 2 * g.max_jitter := by omega
  set i := raw 0 % g.sequences.length with hidef
  set j := raw 1 % (g.max_jitter * 2) with hjdef
  have hseq : g.sequences.get? i = some (g.sequences.get ⟨i, hi⟩) :=
    List.get?_eq_get hi
  have hi2 : i < g.signals.length := by omega
  have hsig : g.signals.get? i = some (g.signals.get ⟨i, hi2⟩) :=
    List.get?_eq_get hi2
  set seqRow := g.sequences.get ⟨i, hi⟩ with hseqdef
  set sigRow := g.signals.get ⟨i, hi2⟩ with hsigdef
  have hseqE : g.sequences[i]? = some seqRow :=
    (List.get?_eq_getElem? _ _).symm.trans hseq
  have hsigE : g.signals[i]? = some sigRow :=
    (List.get?_eq_getElem? _ _).symm.trans hsig
  have hseqmem : seqRow ∈ g.sequences := List.get_mem _ _ _
  have hsigmem : sigRow ∈ g.signals := List.get_mem _ _ _
  have hXw : ∀ ch ∈ sliceCh seqRow j g.in_window, ch.length = g.in_window :=
    sliceCh_width _ _ _ _ (hseqw seqRow hseqmem) hj
  have hyw : ∀ ch ∈ sliceCh sigRow j g.out_window, ch.length = g.out_window :=
    sliceCh_width _ _ _ _ (hsigw sigRow hsigmem) hj
  cases hc : g.controls with
  | none =>
    by_cases hb : (g.reverse_complement ∧ raw 2 % 2 = 1)
    · refine ⟨i, j, true, seqRow, sigRow,
        rcTransform (sliceCh seqRow j g.in_window),
        rcTransform (sliceCh sigRow j g.out_window), none,
        ?_, hi, hj, hseq, hsig, by simp, by simp, fun _ => rfl,
        ?_, rcTransform_width _ _ hXw, rcTransform_width _ _ hyw, ?_⟩
      · simp [getitem, npChoice, npRandint, hn, hmj2, ← hidef, ← hjdef,
          hseqE, hsigE, hc, hb]
      · intro cs hcs
        exact absurd hcs (by simp)
      · intro Xc' hXc'
        exact absurd hXc' (by simp)
    · refine ⟨i, j, false, seqRow, sigRow,
        sliceCh seqRow j g.in_window, sliceCh sigRow j g.out_window, none,
        ?_, hi, hj, hseq, hsig, by simp, by simp, fun _ => rfl,
        ?_, hXw, hyw, ?_⟩
      · simp [getitem, npChoice, npRandint, hn, hmj2, ← hidef, ← hjdef,
          hseqE, hsigE, hc, hb]
      · intro cs hcs
        exact absurd hcs (by simp)
      · intro Xc' hXc'
        exact absurd hXc' (by simp)
  | some cs =>
    have hi3 : i < cs.length := by
      rw [hctllen cs hc]
      exact hi
    have hctl : cs.get? i = some (cs.get ⟨i, hi3⟩) := List.get?_eq_get hi3
    set ctlRow := cs.get ⟨i, hi3⟩ with hctldef
    have hctlE : cs[i]? = some ctlRow :=
      (List.get?_eq_getElem? _ _).symm.trans hctl
    have hctlmem : ctlRow ∈ cs := List.get_mem _ _ _
    have hXcw : ∀ ch ∈ sliceCh ctlRow j g.in_window, ch.length = g.in_window :=
      sliceCh_width _ _ _ _ (hctlw cs hc ctlRow hctlmem) hj
    by_cases hb : (g.reverse_complement ∧ raw 2 % 2 = 1)
    · refine ⟨i, j, true, seqRow, sigRow,
        rcTransform (sliceCh seqRow j g.in_window),
        rcTransform (sliceCh sigRow j g.out_window),
        some (rcTransform (sliceCh ctlRow j g.in_window)),
        ?_, hi, hj, hseq, hsig, by simp, by simp, ?_,
        ?_, rcTransform_width _ _ hXw, rcTransform_width _ _ hyw, ?_⟩
      · simp [getitem, npChoice, npRandint, hn, hmj2, ← hidef, ← hjdef,
          hseqE, hsigE, hc, hctlE, hb]
      · intro hnone
        exact absurd hnone (by simp)
      · intro cs' hcs'
        simp only [Option.some.injEq] at hcs'
        subst hcs'
        exact ⟨ctlRow, hctl, by simp⟩
      · intro Xc' hXc'
        simp only [Option.some.injEq] at hXc'
        subst hXc'
        exact rcTransform_width _ _ hXcw
    · refine ⟨i, j, false, seqRow, sigRow,
        sliceCh seqRow j g.in_window, sliceCh sigRow j g.out_window,
        some (sliceCh ctlRow j g.in_window),
        ?_, hi, hj, hseq, hsig, by simp, by simp, ?_,
        ?_, hXw, hyw, ?_⟩
      · simp [getitem, npChoice, npRandint, hn, hmj2, ← hidef, ← hjdef,
          hseqE, hsigE, hc, hctlE, hb]
      · intro hnone
        exact absurd hnone (by simp)
      · intro cs' hcs'
        simp only [Option.some.injEq] at hcs'
        subst hcs'
        exact ⟨ctlRow, hctl, by simp⟩
      · intro Xc' hXc'
        simp only [Option.some.injEq] at hXc'
        subst hXc'
        exact hXcw

/-- A one-example generator used to witness the sampler theorem. -/
def dgEx : DGen :=
  { sequences := [[[1, 2, 3, 4]]], signals := [[[5, 6, 7]]],
    controls := some [[[8, 9, 10, 11]]], in_window := 2, out_window := 1,
    max_jitter := 1, reverse_complement := true }

/-- The draw stream used for the sampler witness. -/
def rawEx : Nat → Nat := fun t => t

/-- C7 witness: the sampler theorem applied to the concrete one-example
generator `dgEx` with the stream `rawEx`. -/
theorem getitem_spec_witness :
    ∃ (i j : Nat) (b : Bool) (seqRow sigRow : List (List Int))
      (X y : List (List Int)) (Xc : Option (List (List Int))),
      getitem dgEx rawEx = some (X, Xc, y) ∧
      i < dgEx.sequences.length ∧ j < 2 * dgEx.max_jitter ∧
      dgEx.sequences.get? i = some seqRow ∧ dgEx.signals.get? i = some sigRow ∧
      X = (if b then rcTransform (sliceCh seqRow j dgEx.in_window)
           else sliceCh seqRow j dgEx.in_window) ∧
      y = (if b then rcTransform (sliceCh sigRow j dgEx.out_window)
           else sliceCh sigRow j dgEx.out_window) ∧
      (dgEx.controls = none → Xc = none) ∧
      (∀ cs, dgEx.controls = some cs → ∃ ctlRow, cs.get? i = some ctlRow ∧
        Xc = some (if b then rcTransform (sliceCh ctlRow j dgEx.in_window)
                   else sliceCh ctlRow j dgEx.in_window)) ∧
      (∀ ch ∈ X, ch.length = dgEx.in_window) ∧
      (∀ ch ∈ y, ch.length = dgEx.out_window) ∧
      (∀ Xc', Xc = some Xc' → ∀ ch ∈ Xc', ch.length = dgEx.in_window) :=
  getitem_spec dgEx rawEx (by decide) (by decide) (by decide)
    (by intro cs hcs; simp only [dgEx, Option.some.injEq] at hcs; subst hcs; decide)
    (by decide) (by decide)
    (by intro cs hcs; simp only [dgEx, Option.some.injEq] at hcs; subst hcs; decide)

/-- A peak record: chromosome, start, end (the bed columns renamed to
`chrom`, `start`, `end` by `extract_peaks`). -/
structure Peak where
  chrom : String
  start : Int
  stop : Int
deriving DecidableEq

/-- Python list/array slicing `a[s:e]` with step 1: negative bounds
count from the end, both bounds clamp to `[0, len]`. -/
def pySlice {α : Type} (a : List α) (s e : Int) : List α :=
  let n : Int := a.length
  let s' := if s < 0 then max (n + s) 0 else min s n
  let e' := if e < 0 then max (n + e) 0 else min e n
  (a.take e'.toNat).drop s'.toNat

/-- `io.py` lines 283-291 (and 298-307 for controls): extract the
window from each track of a source list.  A source is the coordinate
lookup capability of spec section 6 (`chrom -> array`, `none` for an
unknown chromosome, propagated as a fatal lookup error). -/
def extractSigRow (sigs : List (String → Option (List Int))) (chrom : String)
    (s e : Int) : Option (List (List Int)) :=
  mapMO (fun sig => (sig chrom).map (fun arr => pySlice arr s e)) sigs

/-- `io.py` lines 277-316: the per-peak body of the extraction loop —
signals over the output window, then controls and the transposed
sequence over the input window. -/
def extractPeakRow (seqSrc : String → Option (List (List Int)))
    (sigs : List (String → Option (List Int)))
    (ctls : Option (List (String → Option (List Int))))
    (in_window out_window max_jitter : Nat) (p : Peak) :
    Option (List (List Int) × List (List Int) × Option (List (List Int))) :=
  let sw := signalWindow p.start p.stop out_window max_jitter
  let qw := seqWindow p.start p.stop in_window max_jitter
  match extractSigRow sigs p.chrom sw.1 sw.2 with
  | none => none
  | some sigRow =>
    match ctls with
    | none =>
      match seqSrc p.chrom with
      | none => none
      | some arr => some (matTranspose (pySlice arr qw.1 qw.2), sigRow, none)
    | some cl =>
      match extractSigRow cl p.chrom qw.1 qw.2 with
      | none => none
      | some ctlRow =>
        match seqSrc p.chrom with
        | none => none
        | some arr => some (matTranspose (pySlice arr qw.1 qw.2), sigRow, some ctlRow)

/-- `io.py` lines 262-263: the order-preserving chromosome filter
`peaks[numpy.isin(peaks.chrom, chroms)]`. -/
def retainedPeaks (peaks : List Peak) (chroms : Option (List String)) : List Peak :=
  match chroms with
  | none => peaks
  | some cs => peaks.filter (fun p => cs.contains p.chrom)

/-- `io.py` lines 170-325, `extract_peaks`: filter the peaks, run the
per-peak extraction loop, and stack the three row lists; the controls
component is absent (not an empty container) when no control sources
are configured. -/
def extract_peaks (peaks : List Peak) (seqSrc : String → Option (List (List Int)))
    (signals : List (String → Option (List Int)))
    (controls : Option (List (String → Option (List Int))))
    (chroms : Option (List String)) (in_window out_window max_jitter : Nat) :
    Option (List (List (List Int)) × List (List (List Int)) ×
      Option (List (List (List Int)))) :=
  match mapMO (extractPeakRow seqSrc signals controls in_window out_window max_jitter)
      (retainedPeaks peaks chroms) with
  | none => none
  | some rows =>
    some (rows.map (fun r => r.1), rows.map (fun r => r.2.1),
      match controls with
      | none => none
      | some _ => some (rows.map (fun r => r.2.2.getD [])))

/-- C9: whenever `extract_peaks` returns, the returned tensors are
row-aligned — their first dimensions all equal the number of retained
peaks (the order-preserving chromosome filter of the input), row `i` of
every returned tensor is the extraction of the `i`-th retained peak,
and the controls tensor is omitted entirely (`none`, not an empty
container) exactly when no control sources are configured. -/
theorem extract_peaks_aligned (peaks : List Peak)
    (seqSrc : String → Option (List (List Int)))
    (signals : List (String → Option (List Int)))
    (controls : Option (List (String → Option (List Int))))
    (chroms : Option (List String)) (in_window out_window max_jitter : Nat)
    (seqs sigs : List (List (List Int))) (ctlsOpt : Option (List (List (List Int))))
    (h : extract_peaks peaks seqSrc signals controls chroms in_window out_window
      max_jitter = some (seqs, sigs, ctlsOpt)) :
    seqs.length = (retainedPeaks peaks chroms).length ∧
    sigs.length = (retainedPeaks peaks chroms).length ∧
    (controls = none → ctlsOpt = none) ∧
    (∀ cl, controls = some cl → ∃ ctlRows, ctlsOpt = some ctlRows ∧
      ctlRows.length = (retainedPeaks peaks chroms).length) ∧
    (∀ i p, (retainedPeaks peaks chroms).get? i = some p →
      ∃ row, extractPeakRow seqSrc signals controls in_window out_window max_jitter p
          = some row ∧
        seqs.get? i = some row.1 ∧ sigs.get? i = some row.2.1 ∧
        ∀ ctlRows, ctlsOpt = some ctlRows →
          ctlRows.get? i = some (row.2.2.getD [])) := by
  unfold extract_peaks at h
  cases hrows : mapMO (extractPeakRow seqSrc signals controls in_window out_window
      max_jitter) (retainedPeaks peaks chroms) with
  | none =>
    rw [hrows] at h
    exact absurd h (by simp)
  | some rows =>
    rw [hrows] at h
    simp only [Option.some.injEq, Prod.mk.injEq] at h
    obtain ⟨hseqs, hsigs, hctls⟩ := h
    have hlen : rows.length = (retainedPeaks peaks chroms).length :=
      mapMO_length _ _ rows hrows
    refine ⟨?_, ?_, ?_, ?_, ?_⟩
    · rw [← hseqs, List.length_map, hlen]
    · rw [← hsigs, List.length_map, hlen]
    · intro hcn
      rw [hcn] at hctls
      exact hctls.symm
    · intro cl hcl
      rw [hcl] at hctls
      exact ⟨rows.map (fun r => r.2.2.getD []), hctls.symm, by
        rw [List.length_map, hlen]⟩
    · intro i p hp
      obtain ⟨row, hrowi, hrow⟩ := mapMO_get? _ _ rows hrows i p hp
      refine ⟨row, hrow, ?_, ?_, ?_⟩
      · rw [← hseqs, List.get?_map, hrowi]
        rfl
      · rw [← hsigs, List.get?_map, hrowi]
        rfl
      · intro ctlRows hctlRows
        rw [hctlRows] at hctls
        cases hcc : controls with
        | none =>
          rw [hcc] at hctls
          exact absurd hctls (by simp)
        | some cl =>
          rw [hcc] at hctls
          simp only [Option.some.injEq] at hctls
          rw [← hctls, List.get?_map, hrowi]
          rfl

/-- Concrete sequence source for the extraction witness: chr1 holds 8
pre-encoded positions, each a 2-channel one-hot column. -/
def seqSrcEx : String → Option (List (List Int)) := fun c =>
  if c = "chr1" then
    some [[1, 0], [0, 1], [1, 0], [0, 1], [1, 0], [0, 1], [1, 0], [0, 1]]
  else none

/-- Concrete signal source list for the extraction witness. -/
def sigSrcEx : List (String → Option (List Int)) :=
  [fun c => if c = "chr1" then some [0, 1, 2, 3, 4, 5, 6, 7] else none]

/-- Concrete control source list for the extraction witness. -/
def ctlSrcEx : List (String → Option (List Int)) :=
  [fun c => if c = "chr1" then some [10, 11, 12, 13, 14, 15, 16, 17] else none]

/-- Concrete peak list for the extraction witness; the chr2 peak is
dropped by the chromosome filter. -/
def peaksEx : List Peak := [⟨"chr1", 4, 8⟩, ⟨"chr2", 0, 4⟩]

/-- C9 witness: the alignment theorem applied to a concrete extraction
over one retained peak with one signal track and one control track. -/
theorem extract_peaks_aligned_witness :
    ([[[0, 1], [1, 0]]] : List (List (List Int))).length =
      (retainedPeaks peaksEx (some ["chr1"])).length ∧
    ([[[5, 6]]] : List (List (List Int))).length =
      (retainedPeaks peaksEx (some ["chr1"])).length ∧
    ((some ctlSrcEx : Option (List (String → Option (List Int)))) = none →
      (some [[[15, 16]]] : Option (List (List (List Int)))) = none) ∧
    (∀ cl, (some ctlSrcEx : Option (List (String → Option (List Int)))) = some cl →
      ∃ ctlRows, (some [[[15, 16]]] : Option (List (List (List Int)))) = some ctlRows ∧
        ctlRows.length = (retainedPeaks peaksEx (some ["chr1"])).length) ∧
    (∀ i p, (retainedPeaks peaksEx (some ["chr1"])).get? i = some p →
      ∃ row, extractPeakRow seqSrcEx sigSrcEx (some ctlSrcEx) 2 2 0 p = some row ∧
        ([[[0, 1], [1, 0]]] : List (List (List Int))).get? i = some row.1 ∧
        ([[[5, 6]]] : List (List (List Int))).get? i = some row.2.1 ∧
        ∀ ctlRows, (some [[[15, 16]]] : Option (List (List (List Int)))) = some ctlRows →
          ctlRows.get? i = some (row.2.2.getD [])) :=
  extract_peaks_aligned peaksEx seqSrcEx sigSrcEx (some ctlSrcEx) (some ["chr1"])
    2 2 0 [[[0, 1], [1, 0]]] [[[5, 6]]] (some [[[15, 16]]]) (by decide)

/-- A genome-scale track covering positions 0-1009, each position
holding its own coordinate, so an extracted slice displays exactly the
window it was cut from. -/
def arrC3 : List Int := (List.range 1010).map (fun n => (n : Int))

/-- Signal source for the window scenario: chr1 backed by `arrC3`. -/
def sigSrcC3 : String → Option (List Int) := fun c =>
  if c = "chr1" then some arrC3 else none

/-- Control source for the window scenario: chr1 backed by `arrC3`. -/
def ctlSrcC3 : String → Option (List Int) := fun c =>
  if c = "chr1" then some arrC3 else none

/-- Sequence source for the window scenario: chr1 with one channel per
position holding its own coordinate. -/
def seqSrcC3 : String → Option (List (List Int)) := fun c =>
  if c = "chr1" then some ((List.range 1010).map (fun n => [(n : Int)])) else none

set_option maxRecDepth 100000 in
/-- C3 counterexample: on the peak (chr1, 1000, 1000) with
`in_window = 4`, `out_window = 2`, `max_jitter = 1` the claim names the
signal/control window [999, 1003) (width 4) and the sequence window
[998, 1004); the code computes the signal window [998, 1002) and the
sequence window [997, 1003) — one less at each endpoint — and queries
the control sources over the width-6 sequence window, not a width-4
one: running the extraction on coordinate-valued tracks returns the
control row [997..1002] (the positions of [997, 1003)), of width 6. -/
theorem extract_windows_counterexample :
    ¬ (signalWindow 1000 1000 2 1 = (999, 1003) ∧
       seqWindow 1000 1000 4 1 = (998, 1004)) ∧
    extractPeakRow seqSrcC3 [sigSrcC3] (some [ctlSrcC3]) 4 2 1
        ⟨"chr1", 1000, 1000⟩ =
      some ([[997, 998, 999, 1000, 1001, 1002]], [[998, 999, 1000, 1001]],
        some [[997, 998, 999, 1000, 1001, 1002]]) ∧
    ([997, 998, 999, 1000, 1001, 1002] : List Int).length ≠ 4 := by
  refine ⟨by decide, by decide, by decide⟩

/-- C3 (amended): for the peak (chr1, 1000, 1000) with `in_window = 4`,
`out_window = 2`, `max_jitter = 1`, extraction computes midpoint 1000,
queries the signal sources over the half-open window [998, 1002)
(width 4), and queries the sequence source and the control sources over
the half-open window [997, 1003) (width 6) — for every choice of
sources, the per-peak extraction asks the signal sources for
[998, 1002) and the control and sequence sources for [997, 1003). -/
theorem extract_windows_concrete :
    peakMid 1000 1000 = 1000 ∧
    signalWindow 1000 1000 2 1 = (998, 1002) ∧
    (signalWindow 1000 1000 2 1).2 - (signalWindow 1000 1000 2 1).1 = 4 ∧
    seqWindow 1000 1000 4 1 = (997, 1003) ∧
    (seqWindow 1000 1000 4 1).2 - (seqWindow 1000 1000 4 1).1 = 6 ∧
    ∀ (seqSrc : String → Option (List (List Int)))
      (sigs ctls : List (String → Option (List Int))),
      extractPeakRow seqSrc sigs (some ctls) 4 2 1 ⟨"chr1", 1000, 1000⟩ =
        (match extractSigRow sigs "chr1" 998 1002 with
         | none => none
         | some sigRow =>
           match extractSigRow ctls "chr1" 997 1003 with
           | none => none
           | some ctlRow =>
             match seqSrc "chr1" with
             | none => none
             | some arr =>
               some (matTranspose (pySlice arr 997 1003), sigRow, some ctlRow)) := by
  refine ⟨by decide, by decide, by decide, by decide, by decide, ?_⟩
  intro seqSrc sigs ctls
  rfl

/-- An element of the caller's `signals`/`controls` list: a filepath
string, an already-loaded dictionary of arrays, or an opened bigwig
reader (`pyBigWig.open` applied to a path). -/
inductive Track where
  | path (s : String)
  | dict (name : String)
  | reader (s : String)
deriving DecidableEq

/-- `io.py` lines 266-268 loop body: `isinstance(signal, str)` dispatch
— a filepath string is replaced by the reader opened from it; any
other element is left as it is. -/
def openTrack : Track → Track
  | Track.path s => Track.reader s
  | t => t

/-- A pandas DataFrame object: its column names and its records. -/
structure DF where
  columns : List String
  rows : List (String × Int × Int)
deriving DecidableEq

/-- The mutable Python objects visible to both `extract_peaks` and its
caller: the signals list object, the optional controls list object, and
a heap of DataFrame objects addressed by index (the caller's `peaks`
DataFrame lives at one of these addresses). -/
structure PyState where
  sigObj : List Track
  ctlObj : Option (List Track)
  dfs : List DF
deriving DecidableEq

def dfDefault : DF := ⟨[], []⟩

/-- `peaks = peaks.copy()` (`io.py` line 259): pandas `copy()` makes a
deep copy, so a fresh DataFrame object is allocated at a new address
and the local name is rebound to it. -/
def dfCopy (st : PyState) (p : Nat) : PyState × Nat :=
  ({ st with dfs := st.dfs ++ [st.dfs.getD p dfDefault] }, st.dfs.length)

/-- `peaks.columns = names` (`io.py` line 260): rename the columns of
the DataFrame object at address `q` in place. -/
def dfSetColumns (st : PyState) (q : Nat) (names : List String) : PyState :=
  { st with dfs := st.dfs.set q { st.dfs.getD q dfDefault with columns := names } }

/-- `io.py` lines 253-273, the setup phase of `extract_peaks` on a
DataFrame argument: copy the caller's `peaks` DataFrame (at address
`p`) and rename the copy's columns, then replace every filepath string
of the caller's `signals` list object — and of the `controls` list
object when present — by an opened reader, via in-place item
assignment (`signals[i] = pyBigWig.open(signal)`).  Returns the
post-call state and the address of the function-local DataFrame. -/
def extract_peaks_setup (st : PyState) (p : Nat) : PyState × Nat :=
  let st1q := dfCopy st p
  let st2 := dfSetColumns st1q.1 st1q.2 ["chrom", "start", "end"]
  ({ st2 with
      sigObj := st2.sigObj.map openTrack,
      ctlObj := st2.ctlObj.map (fun l => l.map openTrack) }, st1q.2)

/-- C10: after the setup phase of `extract_peaks`, the caller's signals
list (and controls list, when supplied) holds an opened reader in place
of every filepath string — the list objects are mutated in place — and
the caller's `peaks` DataFrame object is unchanged, because the column
rename is applied to a fresh copy (which carries the new column names
and the caller's records). -/
theorem extract_peaks_setup_frame (st : PyState) (p : Nat)
    (hp : p < st.dfs.length) :
    (extract_peaks_setup st p).1.sigObj = st.sigObj.map openTrack ∧
    (extract_peaks_setup st p).1.ctlObj = st.ctlObj.map (fun l => l.map openTrack) ∧
    (extract_peaks_setup st p).1.dfs[p]? = st.dfs[p]? ∧
    (extract_peaks_setup st p).1.dfs[(extract_peaks_setup st p).2]? =
      some { columns := ["chrom", "start", "end"],
             rows := (st.dfs.getD p dfDefault).rows } := by
  have hne : st.dfs.length ≠ p := (Nat.ne_of_lt hp).symm
  refine ⟨rfl, rfl, ?_, ?_⟩
  · show ((st.dfs ++ [st.dfs.getD p dfDefault]).set st.dfs.length _)[p]? = st.dfs[p]?
    rw [List.getElem?_set_ne hne, List.getElem?_append_left hp]
  · show ((st.dfs ++ [st.dfs.getD p dfDefault]).set st.dfs.length _)[st.dfs.length]?
      = _
    have hlt : st.dfs.length < (st.dfs ++ [st.dfs.getD p dfDefault]).length := by
      simp
    rw [List.getElem?_set_self hlt]
    simp [dfCopy, List.getD_eq_getElem?_getD, List.getElem?_concat_length]

/-- Concrete pre-call state for the frame-effect witness: one filepath
signal track and one dictionary track, one filepath control track, and
the caller's peaks DataFrame at address 0 of a two-object heap. -/
def stEx : PyState :=
  { sigObj := [Track.path ("a.bw"), Track.dict ("d")],
    ctlObj := some [Track.path ("c.bw")],
    dfs := [⟨["c0", "c1", "c2"], [("chr1", 5, 9)]⟩, ⟨["x"], []⟩] }

/-- C10 witness: the frame-effect theorem applied to the concrete
state `stEx` with the caller's DataFrame at address 0. -/
theorem extract_peaks_setup_frame_witness :
    (extract_peaks_setup stEx 0).1.sigObj = stEx.sigObj.map openTrack ∧
    (extract_peaks_setup stEx 0).1.ctlObj =
      stEx.ctlObj.map (fun l => l.map openTrack) ∧
    (extract_peaks_setup stEx 0).1.dfs[0]? = stEx.dfs[0]? ∧
    (extract_peaks_setup stEx 0).1.dfs[(extract_peaks_setup stEx 0).2]? =
      some { columns := ["chrom", "start", "end"],
             rows := (stEx.dfs.getD 0 dfDefault).rows } :=
  extract_peaks_setup_frame stEx 0 (by decide)

/-- C4: the claim asserts that every sequence over a single-symbol
alphabet degrades to identity copies without error, but on the one-hot
sequence "CC" (decoded `[1, 1]`) the successor-list lookup
`next_idxs[1]` hits a list of length 1 and `dinucleotide_shuffle`
raises `IndexError` instead of returning copies of the input. -/
theorem dinucleotide_shuffle_raises_on_CC :
    dinucleotide_shuffle rngRange ohCC 1 = none := by decide
